import Mathlib

/-!
Verification of the virtual filesystem service (`FileService`, src/unnamed/part_003)
against its natural-language specification.

The service code under src/ is embedded shallowly below.  Helpers that the service
imports from elsewhere in the repository (vs/base, vs/platform/files/common/files)
are not under src/; each such helper is modelled from the spec and carries a doc
comment starting with `Modelled from the spec:`.
-/

/-- Decidable equality for `Except`, used to evaluate embedded operations on
concrete inputs. -/
instance {ε α : Type} [DecidableEq ε] [DecidableEq α] : DecidableEq (Except ε α) := fun x y =>
  match x, y with
  | .ok a, .ok b => if h : a = b then .isTrue (by rw [h]) else .isFalse (by simp [h])
  | .error a, .error b => if h : a = b then .isTrue (by rw [h]) else .isFalse (by simp [h])
  | .ok _, .error _ => .isFalse (by simp)
  | .error _, .ok _ => .isFalse (by simp)

namespace VFS

/-- Result codes of the error taxonomy (`FileOperationResult` is declared in
vs/platform/files/common/files, outside src/, but every code is listed in spec §7). -/
inductive FileOperationResult where
  | FILE_IS_DIRECTORY
  | FILE_NOT_DIRECTORY
  | FILE_NOT_FOUND
  | FILE_NOT_MODIFIED_SINCE
  | FILE_MODIFIED_SINCE
  | FILE_MOVE_CONFLICT
  | FILE_TOO_LARGE
  | FILE_EXCEEDS_MEMORY_LIMIT
  | FILE_PERMISSION_DENIED
  | FILE_INVALID_PATH
deriving DecidableEq, Repr

/-- Errors surfaced by the service: tagged operation errors, the ENOPRO
"no provider" error, the provider-level FileNotFound code, and other provider
errors identified by a tag standing for the localized message. -/
inductive FsError where
  | operation (result : FileOperationResult)
  | noProvider
  | notFound
  | providerError (tag : String)
deriving DecidableEq, Repr

/-- Bit of `FileType.File` (vs/platform/files/common/files). -/
def FileType.File : Nat := 1

/-- Bit of `FileType.Directory`. -/
def FileType.Directory : Nat := 2

/-- Bit of `FileType.SymbolicLink`. -/
def FileType.SymbolicLink : Nat := 64

/-- Modelled from the spec: `ETAG_DISABLED` lives in vs/platform/files/common/files,
outside src/.  It is the sentinel etag value that opts out of precondition checks;
in the repository it is the empty string. -/
def ETAG_DISABLED : String := ""

/-- Modelled from the spec: the `etag` function lives in vs/platform/files/common/files,
outside src/.  Per spec §3 it is a deterministic short tag derived from `(mtime, size)`;
we model it as an injective textual encoding of the pair, which is never equal to
`ETAG_DISABLED`. -/
def etag (mtime : Nat) (size : Nat) : String :=
  toString mtime ++ "-" ++ toString size

/-- Provider stat record (`IStat`): a type bitmask and numeric mtime/ctime/size.
The claims under study quantify over stats with numeric mtime and size, which is
what the `Nat` fields model. -/
structure IStat where
  type : Nat
  mtime : Nat
  ctime : Nat
  size : Nat
deriving DecidableEq, Repr

/-- Write options consulted by the dirty-write guard (`IWriteFileOptions`):
an optional numeric mtime and an optional string etag. -/
structure IWriteFileOptions where
  mtime : Option Nat
  etag : Option String
deriving DecidableEq, Repr

/-- Embedding of `FileService.validateWriteFile` (src/unnamed/part_003:348-382).
The provider `stat` call is summarized by its outcome `statResult`: `none` when the
stat threw (file might not exist), `some stat` otherwise.  The source first rejects
directories with FILE_IS_DIRECTORY, then applies the dirty-write guard: with a
numeric `options.mtime`, a string `options.etag` different from `ETAG_DISABLED`,
`options.mtime < stat.mtime` and `options.etag !== etag({mtime: options.mtime,
size: stat.size})` it throws FILE_MODIFIED_SINCE, else returns the stat. -/
def validateWriteFile (statResult : Option IStat) (options : Option IWriteFileOptions) :
    Except FileOperationResult (Option IStat) :=
  match statResult with
  | none => .ok none
  | some stat =>
    if (stat.type &&& FileType.Directory) != 0 then
      .error .FILE_IS_DIRECTORY
    else
      match options with
      | some o =>
        match o.mtime, o.etag with
        | some m, some e =>
          if e != ETAG_DISABLED && decide (m < stat.mtime) && e != etag m stat.size then
            .error .FILE_MODIFIED_SINCE
          else
            .ok (some stat)
        | _, _ => .ok (some stat)
      | none => .ok (some stat)

/-- Read limits (`IFileReadLimits`): optional size and memory bounds. -/
structure IFileReadLimits where
  size : Option Nat
  memory : Option Nat
deriving DecidableEq, Repr

/-- Read options (`IReadFileOptions`): optional position, length, etag and limits. -/
structure IReadFileOptions where
  position : Option Nat
  length : Option Nat
  etag : Option String
  limits : Option IFileReadLimits
deriving DecidableEq, Repr

/-- Embedding of `FileService.validateReadFileLimits` (src/unnamed/part_003:521-537):
when limits are present, a size above `limits.memory` selects
FILE_EXCEEDS_MEMORY_LIMIT and a size above `limits.size` overrides the selection
with FILE_TOO_LARGE; a selected code is thrown. -/
def validateReadFileLimits (size : Nat) (options : Option IReadFileOptions) :
    Except FileOperationResult Unit :=
  match options with
  | none => .ok ()
  | some o =>
    match o.limits with
    | none => .ok ()
    | some limits =>
      let afterMemory : Option FileOperationResult :=
        match limits.memory with
        | some m => if size > m then some .FILE_EXCEEDS_MEMORY_LIMIT else none
        | none => none
      let afterSize : Option FileOperationResult :=
        match limits.size with
        | some s => if size > s then some .FILE_TOO_LARGE else afterMemory
        | none => afterMemory
      match afterSize with
      | some e => .error e
      | none => .ok ()

/-- Embedding of `FileService.readFileUnbuffered` (src/unnamed/part_003:483-500).
The provider-returned buffer is `content`; a numeric `position` slices from that
position, a numeric `length` then truncates (`buffer.slice`, modelled by
`List.drop`/`List.take`), and the limits validation runs on the resulting byte
length before the bytes are returned. -/
def readFileUnbuffered (content : List Nat) (options : Option IReadFileOptions) :
    Except FileOperationResult (List Nat) :=
  let afterPosition :=
    match options with
    | some o =>
      match o.position with
      | some p => content.drop p
      | none => content
    | none => content
  let afterLength :=
    match options with
    | some o =>
      match o.length with
      | some l => afterPosition.take l
      | none => afterPosition
    | none => afterPosition
  match validateReadFileLimits afterLength.length options with
  | .error e => .error e
  | .ok _ => .ok afterLength

/-- Modelled from the spec: URIs (vs/base/common/uri) are outside src/.  We model the
fields the file service consults: the scheme, an absolute-path flag (spec §4.1 requires
`resource.path` absolute) and the path as a list of segments.  Authority, query and
fragment are not consulted by the modelled code paths. -/
structure Uri where
  scheme : String
  absolute : Bool
  segs : List String
deriving DecidableEq, Repr

/-- Modelled from the spec: `URI.toString` renders the canonical string form
(spec §3: two identifiers are equivalent iff their canonical string forms match). -/
def Uri.toString (u : Uri) : String :=
  u.scheme ++ "://" ++ String.intercalate "/" u.segs

/-- Modelled from the spec: `resources.dirname` (vs/base/common/resources, outside
src/) removes the last path segment; the root is its own dirname. -/
def Uri.dirname (u : Uri) : Uri :=
  { u with segs := u.segs.dropLast }

/-- Modelled from the spec: `resources.basename` returns the last path segment. -/
def Uri.basename (u : Uri) : String :=
  u.segs.getLastD ""

/-- Modelled from the spec: `resources.flattenPath` appends a path segment. -/
def joinPath (u : Uri) (name : String) : Uri :=
  { u with segs := u.segs ++ [name] }

/-- Modelled from the spec: `resources.isEqual` compares the canonical string forms,
lowercased when case is ignored. -/
def isEqualUri (a b : Uri) (ignoreCase : Bool) : Bool :=
  if ignoreCase then a.toString.toLower == b.toString.toLower
  else a.toString == b.toString

/-- Lowercased path segments, used by the case-insensitive comparisons. -/
def lowerSegs (l : List String) : List String := l.map String.toLower

/-- Modelled from the spec: `resources.isEqualOrParent base parentCandidate` holds when
`base` equals `parentCandidate` or lies beneath it, with optional case folding. -/
def isEqualOrParentUri (base parentCandidate : Uri) (ignoreCase : Bool) : Bool :=
  base.scheme == parentCandidate.scheme &&
    (let bs := if ignoreCase then lowerSegs base.segs else base.segs
     let ps := if ignoreCase then lowerSegs parentCandidate.segs else parentCandidate.segs
     ps.isPrefixOf bs)

/-- A registered filesystem provider: an identity and a capability bitset
(spec §3: the capability set is a bitset observed at every call). -/
structure Provider where
  id : Nat
  capabilities : Nat
deriving DecidableEq, Repr

/-- Capability bit `FileReadWrite` (values as declared in
vs/platform/files/common/files). -/
def FileSystemProviderCapabilities.FileReadWrite : Nat := 2

/-- Capability bit `FileOpenReadWriteClose`. -/
def FileSystemProviderCapabilities.FileOpenReadWriteClose : Nat := 4

/-- Capability bit `FileFolderCopy`. -/
def FileSystemProviderCapabilities.FileFolderCopy : Nat := 8

/-- Capability bit `FileReadStream`. -/
def FileSystemProviderCapabilities.FileReadStream : Nat := 16

/-- Capability bit `PathCaseSensitive`. -/
def FileSystemProviderCapabilities.PathCaseSensitive : Nat := 1024

/-- Capability bit `Readonly`. -/
def FileSystemProviderCapabilities.Readonly : Nat := 2048

/-- Capability bit `Trash`. -/
def FileSystemProviderCapabilities.Trash : Nat := 4096

/-- Capability probe `hasReadWriteCapability`. -/
def hasReadWriteCapability (p : Provider) : Bool :=
  (p.capabilities &&& FileSystemProviderCapabilities.FileReadWrite) != 0

/-- Capability probe `hasOpenReadWriteCloseCapability`. -/
def hasOpenReadWriteCloseCapability (p : Provider) : Bool :=
  (p.capabilities &&& FileSystemProviderCapabilities.FileOpenReadWriteClose) != 0

/-- Capability probe `hasFileFolderCopyCapability`. -/
def hasFileFolderCopyCapability (p : Provider) : Bool :=
  (p.capabilities &&& FileSystemProviderCapabilities.FileFolderCopy) != 0

/-- Capability probe `hasFileReadStreamCapability`. -/
def hasFileReadStreamCapability (p : Provider) : Bool :=
  (p.capabilities &&& FileSystemProviderCapabilities.FileReadStream) != 0

/-- Embedding of `isAbsolutePath` as used by `withProvider`. -/
def isAbsolutePath (u : Uri) : Bool := u.absolute

/-- Embedding of `FileService.withProvider` (src/unnamed/part_003:105-126): a relative
path fails with FILE_INVALID_PATH, an unregistered scheme fails with the ENOPRO
error, otherwise the registered provider is returned.  The provider map after
`activateProvider` settles is modelled by the lookup function `reg`. -/
def withProvider (reg : String → Option Provider) (resource : Uri) :
    Except FsError Provider :=
  if !isAbsolutePath resource then .error (.operation .FILE_INVALID_PATH)
  else
    match reg resource.scheme with
    | some p => .ok p
    | none => .error .noProvider

/-- Embedding of `FileService.exists` (src/unnamed/part_003:275-285), named
`existsFile` because `exists` is reserved in Lean.  Note that `withProvider` runs
before the try/catch: only errors of the provider `stat` call are swallowed. -/
def existsFile (reg : String → Option Provider)
    (stat : Provider → Uri → Except FsError IStat) (resource : Uri) :
    Except FsError Bool :=
  match withProvider reg resource with
  | .error e => .error e
  | .ok provider =>
    match stat provider resource with
    | .ok _ => .ok true
    | .error _ => .ok false

/-- An in-memory filesystem node, modelling what the provider's `stat`/`readdir`
calls report during `resolve`: a leaf carries its stat, a directory carries its
stat and named children.  Provider errors during resolution are outside the scope
of the expansion claims and are not modelled. -/
inductive FsEntry where
  | file (stat : IStat)
  | dir (stat : IStat) (children : List (String × FsEntry))

/-- The stat that `provider.stat` reports for a node. -/
def FsEntry.statOf : FsEntry → IStat
  | .file s => s
  | .dir s _ => s

/-- Embedding of `IFileStat` as built by `toFileStat`: independent type bits, the
etag derived from `(mtime, size)`, and optional children. -/
structure FileStat where
  resource : String
  name : String
  isFile : Bool
  isDirectory : Bool
  isSymbolicLink : Bool
  mtime : Nat
  size : Nat
  etag : String
  children : Option (List FileStat)

/-- Path segments of a URI string, as the path-keyed ternary search tree splits
its keys (on `/`). -/
def pathSegsOf (s : String) : List String := s.splitOn "/"

/-- Whether `a` is a strict path-segment ancestor of `b`. -/
def isStrictPathAncestor (a b : String) : Bool :=
  (pathSegsOf a).isPrefixOf (pathSegsOf b) && (pathSegsOf a).length < (pathSegsOf b).length

/-- Modelled from the spec: `TernarySearchTree.forPaths` (vs/base/common/map,
outside src/) keyed by URI strings.  `findSuperstr k` reports entries strictly
beneath `k` in path-segment terms; the trie itself is the list of inserted keys. -/
def trieFindSuperstr (keys : List String) (k : String) : Bool :=
  keys.any (fun u => isStrictPathAncestor k u)

/-- Modelled from the spec: `TernarySearchTree.get` reports an entry exactly at the
key. -/
def trieGet (keys : List String) (k : String) : Bool :=
  keys.contains k

/-- Embedding of the recursion callback that `doResolveFile`
(src/unnamed/part_003:188-210) passes to `toFileStat`: the lazily built trie is
seeded with the resolved resource and all `resolveTo` URIs; a node recurses when
the trie holds an entry strictly beneath or exactly at its URI string, else a
directory recurses when `resolveSingleChildDescendants` is set and it has exactly
one sibling. -/
def resolveRecurseCallback (resource : Uri) (resolveTo : List Uri)
    (resolveSingleChildDescendants : Bool) (st : FileStat) (siblings : Option Nat) : Bool :=
  let trie := resource.toString :: resolveTo.map Uri.toString
  if trieFindSuperstr trie st.resource || trieGet trie st.resource then true
  else if st.isDirectory && resolveSingleChildDescendants then siblings == some 1
  else false

mutual

/-- Embedding of `FileService.toFileStat` (src/unnamed/part_003:213-259): convert the
provider stat into a `FileStat` (type bits, etag from `(mtime, size)`), and when the
node is a directory and the `recurse` callback approves, list the children via
`readdir` and recurse into each with the listing length as the sibling count.
`getBaseLabel` is modelled by the URI basename.  The `resolveMetadata` flag only
controls whether children carry full stats; in this in-memory model child stats
are always available, which subsumes both modes. -/
def toFileStat (recurse : FileStat → Option Nat → Bool) (resource : Uri) (entry : FsEntry)
    (siblings : Option Nat) : FileStat :=
  let st := entry.statOf
  let fileStat : FileStat :=
    { resource := resource.toString
      name := Uri.basename resource
      isFile := (st.type &&& FileType.File) != 0
      isDirectory := (st.type &&& FileType.Directory) != 0
      isSymbolicLink := (st.type &&& FileType.SymbolicLink) != 0
      mtime := st.mtime
      size := st.size
      etag := etag st.mtime st.size
      children := none }
  if fileStat.isDirectory && recurse fileStat siblings then
    match entry with
    | .file _ => fileStat
    | .dir _ children =>
      { fileStat with children := some (toFileStatChildren recurse resource children children.length) }
  else fileStat

/-- Children of a directory node, each resolved with the parent's listing length as
its sibling count (the `entries.length` argument in the source). -/
def toFileStatChildren (recurse : FileStat → Option Nat → Bool) (parent : Uri)
    (cs : List (String × FsEntry)) (total : Nat) : List FileStat :=
  match cs with
  | [] => []
  | (name, c) :: rest =>
    toFileStat recurse (joinPath parent name) c (some total) ::
      toFileStatChildren recurse parent rest total

end

/-- Embedding of `FileService.doResolveFile` (src/unnamed/part_003:175-211): stat the
resource and convert it with the trie-driven recursion callback, starting with no
sibling count. -/
def doResolveFile (resource : Uri) (entry : FsEntry) (resolveTo : List Uri)
    (resolveSingleChildDescendants : Bool) : FileStat :=
  toFileStat (resolveRecurseCallback resource resolveTo resolveSingleChildDescendants)
    resource entry none

/-- Consistency of a node's constructor with its Directory type bit (true of every
provider-reported stat: `readdir` lists exactly the nodes whose stat carries the
Directory bit). -/
def dirBitConsistent : FsEntry → Prop
  | .file s => s.type &&& FileType.Directory = 0
  | .dir s _ => s.type &&& FileType.Directory ≠ 0

/-- Internal mode of `doMoveCopy` (the source's string literals `move` / `copy`). -/
inductive MoveCopyMode where
  | move
  | copy
deriving DecidableEq, Repr

/-- The four byte-pipe variants of spec §4.6. -/
inductive PipeKind where
  | bufferedToBuffered
  | bufferedToUnbuffered
  | unbufferedToBuffered
  | unbufferedToUnbuffered
deriving DecidableEq, Repr

/-- Provider-visible operations performed by the move/copy engine and mkdirp,
recorded as a trace in submission order. -/
inductive Action where
  | del (resource : Uri) (recursive : Bool)
  | mkdirp (dir : Uri)
  | providerCopy (source target : Uri) (overwrite : Bool)
  | mkdir (dir : Uri)
  | pipe (kind : PipeKind) (source target : Uri)
  | rename (source target : Uri) (overwrite : Bool)
deriving DecidableEq, Repr

/-- Errors of the embedded `mkdirp`. -/
inductive MkdirpError where
  | outOfFuel
  | notADirectory
  | other (e : FsError)
deriving DecidableEq, Repr

/-- Embedding of the upward walk of `FileService.mkdirp` (src/unnamed/part_003:725-750):
while the directory is not its own dirname, stat it; an existing directory stops the
walk, an existing non-directory fails, a FileNotFound error records the basename and
climbs to the dirname, any other error propagates.  The unbounded `while` loop is
embedded with explicit fuel; exhausted fuel is the distinguished `outOfFuel` outcome
that claim C10 proves unreachable with fuel exceeding the path depth. -/
def mkdirpUp (stat : Uri → Except FsError IStat) (fuel : Nat) (directory : Uri)
    (directoriesToCreate : List String) : Except MkdirpError (Uri × List String) :=
  match fuel with
  | 0 => .error .outOfFuel
  | fuel' + 1 =>
    if directory == Uri.dirname directory then .ok (directory, directoriesToCreate)
    else
      match stat directory with
      | .ok st =>
        if (st.type &&& FileType.Directory) == 0 then .error .notADirectory
        else .ok (directory, directoriesToCreate)
      | .error e =>
        if e != FsError.notFound then .error (.other e)
        else mkdirpUp stat fuel' (Uri.dirname directory)
          (directoriesToCreate ++ [Uri.basename directory])

/-- Embedding of the downward loop of `FileService.mkdirp` (src/unnamed/part_003:752-757):
join each collected basename in turn (the source iterates the collected array from its
end) and `mkdir` the joined directory.  Takes the names already reversed into
creation order. -/
def mkdirDown : Uri → List String → List Action
  | _, [] => []
  | base, n :: rest => Action.mkdir (joinPath base n) :: mkdirDown (joinPath base n) rest

/-- Embedding of `FileService.mkdirp`: the upward walk followed by the downward
creation loop over the collected basenames. -/
def mkdirp (stat : Uri → Except FsError IStat) (fuel : Nat) (directory : Uri) :
    Except MkdirpError (List Action) :=
  match mkdirpUp stat fuel directory [] with
  | .error e => .error e
  | .ok (base, directoriesToCreate) => .ok (mkdirDown base directoriesToCreate.reverse)

/-- Embedding of `FileService.toMapKey` (src/unnamed/part_003:883-887): the canonical
resource key is the URI string, lowercased when the provider lacks
`PathCaseSensitive`. -/
def toMapKey (provider : Provider) (resource : Uri) : String :=
  if (provider.capabilities &&& FileSystemProviderCapabilities.PathCaseSensitive) != 0 then
    resource.toString
  else
    resource.toString.toLower

/-- A pending write-style task for the write-queue model: the target resource and the
bytes the task writes when it runs (for a buffered or unbuffered `writeFile` this is
the payload; for a cross-provider pipe it is the source content the pipe transfers). -/
structure WriteReq where
  resource : Uri
  payload : List Nat
deriving DecidableEq, Repr

/-- Events of one queued task's execution, tagged with the canonical key and the
task's payload: the task starts (its provider calls begin) and finishes (its provider
calls end). -/
inductive WriteEvent where
  | started (key : String) (payload : List Nat)
  | finished (key : String) (payload : List Nat)
deriving DecidableEq, Repr

/-- Modelled from the spec: the `Queue` behind `ensureWriteQueue`
(vs/base/common/async, outside src/) runs its tasks strictly one after another in
FIFO submission order (spec §5).  `ensureWriteQueue` itself
(src/unnamed/part_003:863-881) keys the queue table by `toMapKey`; enqueueing
appends the task to the queue stored at its canonical key. -/
def enqueueWrite (provider : Provider) (queues : String → List WriteReq) (req : WriteReq) :
    String → List WriteReq :=
  fun k => if k = toMapKey provider req.resource then queues k ++ [req] else queues k

/-- Submitting a sequence of tasks enqueues each in submission order. -/
def enqueueAll (provider : Provider) (queues : String → List WriteReq)
    (reqs : List WriteReq) : String → List WriteReq :=
  reqs.foldl (enqueueWrite provider) queues

/-- The provider-level trace of one queued task: it starts, performs its writes and
finishes before the queue hands over to the next task (`doWriteBuffered` opens,
writes and closes inside a single queued task, src/unnamed/part_003:889-910). -/
def writeTaskTrace (key : String) (req : WriteReq) : List WriteEvent :=
  [.started key req.payload, .finished key req.payload]

/-- Sequential execution of one key's queue: each task in FIFO order overwrites the
content stored at the key with its payload and appends its trace. -/
def runWriteQueue (key : String) (tasks : List WriteReq)
    (content : String → Option (List Nat)) :
    (String → Option (List Nat)) × List WriteEvent :=
  tasks.foldl
    (fun st req =>
      ((fun k => if k = key then some req.payload else st.1 k),
        st.2 ++ writeTaskTrace key req))
    (content, [])

/-- File operations reported through `onAfterOperation`. -/
inductive FileOperation where
  | CREATE
  | WRITE
  | DELETE
  | MOVE
  | COPY
deriving DecidableEq, Repr

/-- Embedding of `FileService.doCopyFile` (src/unnamed/part_003:630-651): dispatch on
the capability pair of (source provider, target provider) to one of the four byte
pipes, recorded as a trace action.  When no variant matches, the function returns
with an empty trace and no error, exactly as the source falls through all four
`if` statements and resolves. -/
def doCopyFile (sourceProvider : Provider) (source : Uri) (targetProvider : Provider)
    (target : Uri) : List Action :=
  if hasOpenReadWriteCloseCapability sourceProvider &&
      hasOpenReadWriteCloseCapability targetProvider then
    [.pipe .bufferedToBuffered source target]
  else if hasOpenReadWriteCloseCapability sourceProvider &&
      hasReadWriteCapability targetProvider then
    [.pipe .bufferedToUnbuffered source target]
  else if hasReadWriteCapability sourceProvider &&
      hasOpenReadWriteCloseCapability targetProvider then
    [.pipe .unbufferedToBuffered source target]
  else if hasReadWriteCapability sourceProvider &&
      hasReadWriteCapability targetProvider then
    [.pipe .unbufferedToUnbuffered source target]
  else
    []

mutual

/-- Embedding of the manual traversal of the copy branch of `doMoveCopy`
(src/unnamed/part_003:596-604) together with `doCopyFolder`
(src/unnamed/part_003:653-669): a resolved file dispatches to `doCopyFile`; a
resolved folder is created at the target and each child is copied recursively.
The snapshot of the source subtree that the per-level `resolve` calls observe is
the `FsEntry`; the parallel child copies are linearized in listing order. -/
def doCopyTree (sourceProvider : Provider) (source : Uri) (entry : FsEntry)
    (targetProvider : Provider) (target : Uri) : List Action :=
  match entry with
  | .file _ => doCopyFile sourceProvider source targetProvider target
  | .dir _ children =>
    Action.mkdir target ::
      doCopyTreeChildren sourceProvider source children targetProvider target

/-- Children of a copied folder, each copied under its name joined to both sides. -/
def doCopyTreeChildren (sourceProvider : Provider) (source : Uri)
    (cs : List (String × FsEntry)) (targetProvider : Provider) (target : Uri) :
    List Action :=
  match cs with
  | [] => []
  | (name, c) :: rest =>
    doCopyTree sourceProvider (joinPath source name) c targetProvider
        (joinPath target name) ++
      doCopyTreeChildren sourceProvider source rest targetProvider target

end

/-- Environment of the move/copy engine: the outcomes the engine observes from
`this.exists(target)` and from resolving the source subtree.  The environment is a
static snapshot of the backing store during the operation. -/
structure MoveEnv where
  existsAt : Uri → Bool
  resolveTree : Uri → Except FsError FsEntry

/-- Embedding of `FileService.doValidateMoveCopy` (src/unnamed/part_003:671-710):
same-provider checks for same-resource-with-different-path-case and for the target
lying at or beneath the source; then, when the target exists and is not the
different-case situation, a missing overwrite flag fails with FILE_MOVE_CONFLICT and
an overwrite whose source lies at or beneath the target fails. -/
def doValidateMoveCopy (env : MoveEnv) (sourceProvider : Provider) (source : Uri)
    (targetProvider : Provider) (target : Uri) (mode : MoveCopyMode) (overwrite : Bool) :
    Except FsError (Bool × Bool) :=
  let isPathCaseSensitive :=
    (sourceProvider.capabilities &&& FileSystemProviderCapabilities.PathCaseSensitive) != 0
  let isSameResourceWithDifferentPathCase :=
    if sourceProvider == targetProvider && !isPathCaseSensitive then
      isEqualUri source target true
    else false
  if sourceProvider == targetProvider && isSameResourceWithDifferentPathCase &&
      (mode == MoveCopyMode.copy) then
    .error (.providerError "unableToMoveCopyError1")
  else if sourceProvider == targetProvider && !isSameResourceWithDifferentPathCase &&
      isEqualOrParentUri target source !isPathCaseSensitive then
    .error (.providerError "unableToMoveCopyError2")
  else
    let exists_ := env.existsAt target
    if exists_ && !isSameResourceWithDifferentPathCase then
      if !overwrite then
        .error (.operation .FILE_MOVE_CONFLICT)
      else if sourceProvider == targetProvider &&
          isEqualOrParentUri source target !isPathCaseSensitive then
        .error (.providerError "unableToMoveCopyError4")
      else
        .ok (exists_, isSameResourceWithDifferentPathCase)
    else
      .ok (exists_, isSameResourceWithDifferentPathCase)

/-- The copy-mode behaviour of `doMoveCopy` (src/unnamed/part_003:571-607).  The
source's single recursive call (the cross-provider move re-enters `doMoveCopy` with
mode `copy`, which performs no further recursion) is unrolled into this function;
`doMoveCopy` below is proved to agree with it at mode `copy`
(`doMoveCopy_copy_eq`). -/
def doMoveCopyAsCopy (env : MoveEnv) (sourceProvider : Provider) (source : Uri)
    (targetProvider : Provider) (target : Uri) (overwrite : Bool) :
    Except FsError (MoveCopyMode × List Action) :=
  if source.toString == target.toString then .ok (.copy, [])
  else
    match doValidateMoveCopy env sourceProvider source targetProvider target .copy overwrite with
    | .error e => .error e
    | .ok (exists_, isSame) =>
      let delActions := if exists_ && !isSame && overwrite then [Action.del target true] else []
      let mkActions := [Action.mkdirp (Uri.dirname target)]
      if sourceProvider == targetProvider && hasFileFolderCopyCapability sourceProvider then
        .ok (.copy, delActions ++ mkActions ++ [.providerCopy source target overwrite])
      else
        match env.resolveTree source with
        | .error e => .error e
        | .ok entry =>
          .ok (.copy, delActions ++ mkActions ++
            doCopyTree sourceProvider source entry targetProvider target)

/-- Embedding of `FileService.doMoveCopy` (src/unnamed/part_003:571-628): identical
string forms are a no-op; validation runs; an existing target is deleted first under
overwrite (unless it is the same resource with different case); parent folders are
created; then copy uses the provider's native copy when same-provider with
`FileFolderCopy`, else the manual traversal; move uses the provider rename when
same-provider, else recursively copies (the unrolled `doMoveCopyAsCopy`) and deletes
the source, returning mode `copy`. -/
def doMoveCopy (env : MoveEnv) (sourceProvider : Provider) (source : Uri)
    (targetProvider : Provider) (target : Uri) (mode : MoveCopyMode) (overwrite : Bool) :
    Except FsError (MoveCopyMode × List Action) :=
  if source.toString == target.toString then .ok (mode, [])
  else
    match doValidateMoveCopy env sourceProvider source targetProvider target mode overwrite with
    | .error e => .error e
    | .ok (exists_, isSame) =>
      let delActions := if exists_ && !isSame && overwrite then [Action.del target true] else []
      let mkActions := [Action.mkdirp (Uri.dirname target)]
      match mode with
      | .copy =>
        if sourceProvider == targetProvider && hasFileFolderCopyCapability sourceProvider then
          .ok (.copy, delActions ++ mkActions ++ [.providerCopy source target overwrite])
        else
          match env.resolveTree source with
          | .error e => .error e
          | .ok entry =>
            .ok (.copy, delActions ++ mkActions ++
              doCopyTree sourceProvider source entry targetProvider target)
      | .move =>
        if sourceProvider == targetProvider then
          .ok (.move, delActions ++ mkActions ++ [.rename source target overwrite])
        else
          match doMoveCopyAsCopy env sourceProvider source targetProvider target overwrite with
          | .error e => .error e
          | .ok (_, copyTrace) =>
            .ok (.copy, delActions ++ mkActions ++ copyTrace ++ [.del source true])

/-- Embedding of `FileService.throwIfFileSystemIsReadonly`
(src/unnamed/part_003:1060-1066): a provider with the Readonly capability fails with
FILE_PERMISSION_DENIED. -/
def throwIfFileSystemIsReadonly (provider : Provider) : Except FsError Provider :=
  if (provider.capabilities &&& FileSystemProviderCapabilities.Readonly) != 0 then
    .error (.operation .FILE_PERMISSION_DENIED)
  else .ok provider

/-- Embedding of `FileService.withWriteProvider` (src/unnamed/part_003:138-146):
resolve the provider and require FileOpenReadWriteClose or FileReadWrite. -/
def withWriteProvider (reg : String → Option Provider) (resource : Uri) :
    Except FsError Provider :=
  match withProvider reg resource with
  | .error e => .error e
  | .ok provider =>
    if hasOpenReadWriteCloseCapability provider || hasReadWriteCapability provider then
      .ok provider
    else .error (.providerError "noWriteCapability")

/-- Embedding of `FileService.move` (src/unnamed/part_003:543-555): resolve both write
providers (rejecting readonly), run `doMoveCopy` with mode `move`, and fire
`onAfterOperation` with MOVE when the returned mode is `move`, COPY otherwise.  The
result carries the fired event, the returned mode and the action trace. -/
def moveOp (env : MoveEnv) (reg : String → Option Provider) (source target : Uri)
    (overwrite : Bool) : Except FsError (FileOperation × MoveCopyMode × List Action) :=
  match withWriteProvider reg source with
  | .error e => .error e
  | .ok sp0 =>
    match throwIfFileSystemIsReadonly sp0 with
    | .error e => .error e
    | .ok sourceProvider =>
      match withWriteProvider reg target with
      | .error e => .error e
      | .ok tp0 =>
        match throwIfFileSystemIsReadonly tp0 with
        | .error e => .error e
        | .ok targetProvider =>
          match doMoveCopy env sourceProvider source targetProvider target .move overwrite with
          | .error e => .error e
          | .ok (mode, trace) =>
            .ok ((if mode == MoveCopyMode.move then FileOperation.MOVE else FileOperation.COPY),
              mode, trace)

/-- Watch options: recursive flag and exclude patterns. -/
structure IWatchOptions where
  recursive : Bool
  excludes : List String
deriving DecidableEq, Repr

/-- Embedding of `FileService.toWatchKey` (src/unnamed/part_003:842-848): the canonical
resource key, the recursive flag and the joined excludes, themselves joined
(JavaScript `Array.join()` joins with commas). -/
def toWatchKey (provider : Provider) (resource : Uri) (options : IWatchOptions) : String :=
  String.intercalate ","
    [toMapKey provider resource, ToString.toString options.recursive,
      String.intercalate "," options.excludes]

/-- A handle returned by `doWatch`: the index of the watcher record its disposal
closure captured, and whether it has been disposed. -/
structure WatchHandle where
  recId : Nat
  disposed : Bool
deriving DecidableEq, Repr

/-- A watcher record of the `activeWatchers` table: the key it was stored under, its
reference count, and how many times its underlying provider disposable has been
disposed. -/
structure WatcherEntry where
  key : String
  count : Int
  underlyingDisposeCalls : Nat
deriving DecidableEq, Repr

instance : Inhabited WatcherEntry := ⟨⟨"", 0, 0⟩⟩

/-- State of the watcher multiplexer: every watcher record ever created (indexed by
allocation order), the `activeWatchers` map from key to record index, every handle
ever returned (indexed by allocation order), and how many times `provider.watch` was
invoked per key. -/
structure WatchState where
  recs : List WatcherEntry
  active : String → Option Nat
  handles : List WatchHandle
  watchCalls : String → Nat

/-- The initial watcher state: empty table, no records, no handles, no provider
watch invocations. -/
def initWatchState : WatchState :=
  ⟨[], fun _ => none, [], fun _ => 0⟩

/-- Embedding of `FileService.doWatch` (src/unnamed/part_003:816-840): when no entry
exists for the key, `provider.watch` is invoked (counted in `watchCalls`) and a fresh
record is stored; either way the record's refcount is incremented and a handle
capturing that record is returned (its index is the second component). -/
def doWatch (key : String) (st : WatchState) : WatchState × Nat :=
  let pick : Nat × WatchState :=
    match st.active key with
    | some rid => (rid, st)
    | none =>
      (st.recs.length,
        { recs := st.recs ++ [⟨key, 0, 0⟩],
          active := fun k => if k = key then some st.recs.length else st.active k,
          handles := st.handles,
          watchCalls := fun k => if k = key then st.watchCalls k + 1 else st.watchCalls k })
  let rid := pick.1
  let st1 := pick.2
  let entry := st1.recs.getD rid default
  ({ st1 with
      recs := st1.recs.set rid { entry with count := entry.count + 1 },
      handles := st1.handles ++ [⟨rid, false⟩] },
    st1.handles.length)

/-- Embedding of the disposal closure returned by `doWatch`
(src/unnamed/part_003:829-839), wrapped in a once-guard: decrement the captured
record's refcount and, when it reaches zero, dispose the underlying disposable and
delete the key from the table.  Modelled from the spec: `toDisposable`
(vs/base/common/lifecycle) is not under src/; per the spec §3 invariant a handle's
disposal takes effect exactly once, so a second disposal of the same handle is a
no-op. -/
def disposeHandle (h : Nat) (st : WatchState) : WatchState :=
  match st.handles[h]? with
  | none => st
  | some hd =>
    if hd.disposed then st
    else
      let handles1 := st.handles.set h { hd with disposed := true }
      let entry := st.recs.getD hd.recId default
      let count1 := entry.count - 1
      if count1 == 0 then
        let entry1 : WatcherEntry :=
          ⟨entry.key, count1, entry.underlyingDisposeCalls + 1⟩
        { recs := st.recs.set hd.recId entry1,
          active := fun k => if k = entry.key then none else st.active k,
          handles := handles1,
          watchCalls := st.watchCalls }
      else
        { recs := st.recs.set hd.recId { entry with count := count1 },
          active := st.active,
          handles := handles1,
          watchCalls := st.watchCalls }

/-- An operation against the watcher multiplexer: a `watch` call for a key, or the
disposal of a previously returned handle. -/
inductive WatchOp where
  | watch (key : String)
  | disposeH (h : Nat)
deriving DecidableEq, Repr

/-- One step of the watcher state machine. -/
def stepWatchOp (op : WatchOp) (st : WatchState) : WatchState :=
  match op with
  | .watch k => (doWatch k st).1
  | .disposeH h => disposeHandle h st

/-- Run a sequence of watcher operations from a state. -/
def runWatchOps (ops : List WatchOp) (st : WatchState) : WatchState :=
  ops.foldl (fun s op => stepWatchOp op s) st

/-- Number of handles not yet disposed. -/
def aliveCount (st : WatchState) : Nat :=
  st.handles.countP (fun h => !h.disposed)

/-- Whether an operation, if it is a watch, watches the given key. -/
def isWatchFor (k : String) : WatchOp → Bool
  | .watch k2 => k2 == k
  | .disposeH _ => true

/-- Invariant of the watcher multiplexer when every watch call targets the single key
`k`: all handles capture record 0; at most one record exists; while no record exists
the table is untouched; and the single record counts exactly the undisposed handles,
keeps the table entry while any handle is alive, and has disposed its underlying
subscription exactly once as soon as no handle is alive. -/
def WatchInv (k : String) (st : WatchState) : Prop :=
  (∀ hnd ∈ st.handles, hnd.recId = 0) ∧
  st.recs.length ≤ 1 ∧
  (st.recs = [] → st.handles = [] ∧ st.active k = none ∧ st.watchCalls k = 0) ∧
  (∀ r, st.recs = [r] →
    r.key = k ∧ st.watchCalls k = 1 ∧ r.count = (aliveCount st : Int) ∧
    st.handles ≠ [] ∧
    (1 ≤ aliveCount st → st.active k = some 0 ∧ r.underlyingDisposeCalls = 0) ∧
    (aliveCount st = 0 → st.active k = none ∧ r.underlyingDisposeCalls = 1))

/-- Example registry for the cross-provider witnesses: one unbuffered provider for
scheme `mem`, a distinct unbuffered provider for scheme `disk`. -/
def memDiskRegistry : String → Option Provider :=
  fun scheme => if scheme = "mem" then some ⟨0, 2⟩
    else if scheme = "disk" then some ⟨1, 2⟩ else none

/-- Example environment for the cross-provider witnesses: no target exists and every
source resolves to a single plain file. -/
def crossMoveEnv : MoveEnv :=
  ⟨fun _ => false, fun _ => .ok (.file ⟨1, 0, 0, 0⟩)⟩

/-! ## Theorems -/

/-- A successful `withProvider` returns exactly the provider registered for the
resource's scheme. -/
theorem withProvider_ok (reg : String → Option Provider) (u : Uri) (p : Provider)
    (h : withProvider reg u = .ok p) : reg u.scheme = some p := by
  unfold withProvider at h
  split at h
  · cases h
  · cases hreg : reg u.scheme with
    | none => rw [hreg] at h; cases h
    | some q =>
      rw [hreg] at h
      simp only [Except.ok.injEq] at h
      exact congrArg some h

/-- A successful readonly check returns its argument. -/
theorem throwIfReadonly_ok (p q : Provider) (h : throwIfFileSystemIsReadonly p = .ok q) :
    q = p := by
  unfold throwIfFileSystemIsReadonly at h
  split at h
  · cases h
  · simp only [Except.ok.injEq] at h
    exact h.symm

/-- A successful `withWriteProvider` returns exactly the provider registered for the
resource's scheme. -/
theorem withWriteProvider_ok (reg : String → Option Provider) (u : Uri) (p : Provider)
    (h : withWriteProvider reg u = .ok p) : reg u.scheme = some p := by
  unfold withWriteProvider at h
  cases hw : withProvider reg u with
  | error e => rw [hw] at h; cases h
  | ok q =>
    rw [hw] at h
    have h2 : (if hasOpenReadWriteCloseCapability q || hasReadWriteCapability q then
        (.ok q : Except FsError Provider)
      else .error (.providerError "noWriteCapability")) = .ok p := h
    by_cases hc : (hasOpenReadWriteCloseCapability q || hasReadWriteCapability q) = true
    · rw [if_pos hc] at h2
      simp only [Except.ok.injEq] at h2
      subst h2
      exact withProvider_ok reg u q hw
    · rw [if_neg hc] at h2
      cases h2

/-- `doMoveCopy` at mode `copy` agrees with its unrolled copy-mode body. -/
theorem doMoveCopy_copy_eq (env : MoveEnv) (sp tp : Provider) (s t : Uri) (ow : Bool) :
    doMoveCopy env sp s tp t .copy ow = doMoveCopyAsCopy env sp s tp t ow := rfl

/-- `doMoveCopy` invoked with mode `copy` always reports mode `copy`. -/
theorem doMoveCopy_copy_mode (env : MoveEnv) (sp tp : Provider) (s t : Uri) (ow : Bool)
    (m : MoveCopyMode) (tr : List Action)
    (h : doMoveCopy env sp s tp t .copy ow = .ok (m, tr)) : m = .copy := by
  rw [doMoveCopy_copy_eq] at h
  unfold doMoveCopyAsCopy at h
  repeat' split at h
  all_goals first
    | (simp only [Except.ok.injEq, Prod.mk.injEq] at h; exact h.1.symm)
    | cases h

/-- A cross-provider move runs the whole engine again in copy mode and then deletes
the source recursively, reporting mode `copy`. -/
theorem doMoveCopy_move_cross (env : MoveEnv) (sp tp : Provider) (s t : Uri) (ow : Bool)
    (m : MoveCopyMode) (tr : List Action) (hne : sp ≠ tp)
    (hstr : s.toString ≠ t.toString)
    (h : doMoveCopy env sp s tp t .move ow = .ok (m, tr)) :
    m = .copy ∧ ∃ pre ct, doMoveCopy env sp s tp t .copy ow = .ok (.copy, ct) ∧
      tr = pre ++ ct ++ [Action.del s true] := by
  have hbeq : (s.toString == t.toString) = false := by
    simp [hstr]
  have hpbeq : (sp == tp) = false := by
    simp [hne]
  unfold doMoveCopy at h
  rw [hbeq] at h
  simp only [Bool.false_eq_true, if_false] at h
  cases hv : doValidateMoveCopy env sp s tp t .move ow with
  | error e =>
    rw [hv] at h
    cases h
  | ok pr =>
    obtain ⟨ex, same⟩ := pr
    rw [hv] at h
    simp only [hpbeq, Bool.false_eq_true, if_false] at h
    cases hrec : doMoveCopyAsCopy env sp s tp t ow with
    | error e =>
      rw [hrec] at h
      cases h
    | ok pr2 =>
      obtain ⟨m2, ct⟩ := pr2
      rw [hrec] at h
      simp only [Except.ok.injEq, Prod.mk.injEq] at h
      obtain ⟨hm, htr⟩ := h
      have hrec2 : doMoveCopy env sp s tp t .copy ow = .ok (m2, ct) := by
        rw [doMoveCopy_copy_eq]
        exact hrec
      have hm2 : m2 = .copy := doMoveCopy_copy_mode env sp tp s t ow m2 ct hrec2
      subst hm2
      refine ⟨hm.symm,
        (if ex && !same && ow then [Action.del t true] else []) ++
          [Action.mkdirp (Uri.dirname t)], ct, hrec2, ?_⟩
      rw [← htr]

/-- C2: when source and target resolve to two different providers, `move` performs the
operation as a full copy-engine run from source to target followed by
`del(source, recursive)`, the internal mode returned is `copy`, and the
`onAfterOperation` event fired by `move` is COPY, not MOVE. -/
theorem claim2_cross_provider_move_event (env : MoveEnv) (reg : String → Option Provider)
    (source target : Uri) (overwrite : Bool) (sp tp : Provider)
    (ev : FileOperation) (mode : MoveCopyMode) (trace : List Action)
    (hsp : reg source.scheme = some sp) (htp : reg target.scheme = some tp)
    (hne : sp ≠ tp) (hstr : source.toString ≠ target.toString)
    (hrun : moveOp env reg source target overwrite = .ok (ev, mode, trace)) :
    ev = .COPY ∧ mode = .copy ∧
      ∃ pre ct, doMoveCopy env sp source tp target .copy overwrite = .ok (.copy, ct) ∧
        trace = pre ++ ct ++ [Action.del source true] := by
  unfold moveOp at hrun
  cases h1 : withWriteProvider reg source with
  | error e => rw [h1] at hrun; cases hrun
  | ok sp0 =>
    rw [h1] at hrun
    simp only [] at hrun
    cases h2 : throwIfFileSystemIsReadonly sp0 with
    | error e => rw [h2] at hrun; cases hrun
    | ok sp1 =>
      rw [h2] at hrun
      simp only [] at hrun
      cases h3 : withWriteProvider reg target with
      | error e => rw [h3] at hrun; cases hrun
      | ok tp0 =>
        rw [h3] at hrun
        simp only [] at hrun
        cases h4 : throwIfFileSystemIsReadonly tp0 with
        | error e => rw [h4] at hrun; cases hrun
        | ok tp1 =>
          rw [h4] at hrun
          simp only [] at hrun
          have hsp1 : sp1 = sp := by
            rw [throwIfReadonly_ok sp0 sp1 h2]
            exact Option.some.inj ((withWriteProvider_ok reg source sp0 h1).symm.trans hsp)
          have htp1 : tp1 = tp := by
            rw [throwIfReadonly_ok tp0 tp1 h4]
            exact Option.some.inj ((withWriteProvider_ok reg target tp0 h3).symm.trans htp)
          subst hsp1
          subst htp1
          cases h5 : doMoveCopy env sp1 source tp1 target .move overwrite with
          | error e => rw [h5] at hrun; cases hrun
          | ok pr =>
            obtain ⟨m, tr⟩ := pr
            rw [h5] at hrun
            simp only [] at hrun
            simp only [Except.ok.injEq, Prod.mk.injEq] at hrun
            obtain ⟨hev, hm, htr⟩ := hrun
            obtain ⟨hmc, pre, ct, hcopy, htrc⟩ :=
              doMoveCopy_move_cross env sp1 tp1 source target overwrite m tr hne hstr h5
            subst hmc
            refine ⟨?_, hm.symm, pre, ct, hcopy, ?_⟩
            · rw [← hev]
              rfl
            · rw [← htr]
              exact htrc

/-- C2, witness: moving `mem:///a` to `disk:///b` across the two distinct providers of
the example registry copies and then deletes the source, firing COPY. -/
theorem claim2_cross_provider_move_event_witness :
    (memDiskRegistry (Uri.mk "mem" true ["a"]).scheme = some ⟨0, 2⟩) ∧
    (memDiskRegistry (Uri.mk "disk" true ["b"]).scheme = some ⟨1, 2⟩) ∧
    ((⟨0, 2⟩ : Provider) ≠ ⟨1, 2⟩) ∧
    ((Uri.mk "mem" true ["a"]).toString ≠ (Uri.mk "disk" true ["b"]).toString) ∧
    (FileOperation.COPY = .COPY ∧ MoveCopyMode.copy = .copy ∧
      ∃ pre ct, doMoveCopy crossMoveEnv ⟨0, 2⟩ (Uri.mk "mem" true ["a"]) ⟨1, 2⟩
          (Uri.mk "disk" true ["b"]) .copy false = .ok (.copy, ct) ∧
        [Action.mkdirp (Uri.mk "disk" true []), Action.mkdirp (Uri.mk "disk" true []),
            Action.pipe .unbufferedToUnbuffered (Uri.mk "mem" true ["a"])
              (Uri.mk "disk" true ["b"]),
            Action.del (Uri.mk "mem" true ["a"]) true] =
          pre ++ ct ++ [Action.del (Uri.mk "mem" true ["a"]) true]) := by
  refine ⟨by decide, by decide, by decide, by decide, ?_⟩
  exact claim2_cross_provider_move_event crossMoveEnv memDiskRegistry
    (Uri.mk "mem" true ["a"]) (Uri.mk "disk" true ["b"]) false ⟨0, 2⟩ ⟨1, 2⟩
    .COPY .copy
    [Action.mkdirp (Uri.mk "disk" true []), Action.mkdirp (Uri.mk "disk" true []),
      Action.pipe .unbufferedToUnbuffered (Uri.mk "mem" true ["a"]) (Uri.mk "disk" true ["b"]),
      Action.del (Uri.mk "mem" true ["a"]) true]
    (by decide) (by decide) (by decide) (by decide) (by decide)

/-- Marking a live handle disposed decreases the number of live handles by one. -/
theorem countP_set_disposed (l : List WatchHandle) :
    ∀ (i : Nat) (hd : WatchHandle), l[i]? = some hd → hd.disposed = false →
      (l.set i ⟨hd.recId, true⟩).countP (fun x => !x.disposed) + 1 =
        l.countP (fun x => !x.disposed) := by
  induction l with
  | nil =>
    intro i hd hget hdisp
    simp at hget
  | cons c tl ih =>
    intro i hd hget hdisp
    cases i with
    | zero =>
      simp only [List.getElem?_cons_zero, Option.some.injEq] at hget
      subst hget
      simp [List.countP_cons, hdisp]
    | succ j =>
      simp only [List.getElem?_cons_succ] at hget
      simp only [List.set_cons_succ, List.countP_cons]
      have := ih j hd hget hdisp
      omega

/-- A watch call adds one live handle. -/
theorem aliveCount_doWatch (k : String) (st : WatchState) :
    aliveCount (doWatch k st).1 = aliveCount st + 1 := by
  unfold doWatch aliveCount
  cases hact : st.active k with
  | some rid => simp [hact, List.countP_append, List.countP_cons]
  | none => simp [hact, List.countP_append, List.countP_cons]

/-- The initial watcher state satisfies the invariant. -/
theorem watchInv_init (k : String) : WatchInv k initWatchState := by
  refine ⟨?_, ?_, ?_, ?_⟩
  · intro hnd hmem
    simp [initWatchState] at hmem
  · simp [initWatchState]
  · intro _
    exact ⟨rfl, rfl, rfl⟩
  · intro r hr
    simp [initWatchState] at hr

/-- A watch call for the key preserves the invariant, provided it happens on the
empty table or while some handle is alive. -/
theorem watchInv_watch (k : String) (st : WatchState) (hInv : WatchInv k st)
    (hpre : st.recs = [] ∨ 1 ≤ aliveCount st) :
    WatchInv k (doWatch k st).1 := by
  obtain ⟨hrec0, hlen, hempty, hone⟩ := hInv
  cases hpre with
  | inl hnil =>
    obtain ⟨hh, hact, hcalls⟩ := hempty hnil
    have hchar : (doWatch k st).1 = WatchState.mk [⟨k, 1, 0⟩]
        (fun k2 => if k2 = k then some 0 else st.active k2) [⟨0, false⟩]
        (fun k2 => if k2 = k then st.watchCalls k2 + 1 else st.watchCalls k2) := by
      unfold doWatch
      simp [hact, hnil, hh]
    rw [hchar]
    refine ⟨?_, ?_, ?_, ?_⟩
    · intro hnd hmem
      simp at hmem
      rw [hmem]
    · simp
    · intro habs
      simp at habs
    · intro r hr
      simp only [List.cons.injEq, and_true] at hr
      subst hr
      have halive : aliveCount (WatchState.mk [⟨k, 1, 0⟩]
          (fun k2 => if k2 = k then some 0 else st.active k2) [⟨0, false⟩]
          (fun k2 => if k2 = k then st.watchCalls k2 + 1 else st.watchCalls k2)) = 1 := by
        simp [aliveCount]
      refine ⟨rfl, ?_, ?_, ?_, ?_, ?_⟩
      · simp [hcalls]
      · rw [halive]
        rfl
      · simp
      · intro _
        exact ⟨by simp, rfl⟩
      · intro habs
        rw [halive] at habs
        cases habs
  | inr hal =>
    have hne : st.handles ≠ [] := by
      intro hnil2
      rw [aliveCount, hnil2] at hal
      simp at hal
    have hrne : st.recs ≠ [] := fun hnil2 => hne (hempty hnil2).1
    obtain ⟨r, hr⟩ :=
      List.length_eq_one.mp (Nat.le_antisymm hlen (List.length_pos.mpr hrne))
    obtain ⟨hkey, hcalls1, hcount, hhne, hposc, hzeroc⟩ := hone r hr
    obtain ⟨hact, hdc⟩ := hposc hal
    have hchar : (doWatch k st).1 = WatchState.mk
        [⟨r.key, r.count + 1, r.underlyingDisposeCalls⟩] st.active
        (st.handles ++ [⟨0, false⟩]) st.watchCalls := by
      unfold doWatch
      simp [hact, hr]
    have halive : aliveCount (doWatch k st).1 = aliveCount st + 1 :=
      aliveCount_doWatch k st
    rw [hchar] at halive ⊢
    refine ⟨?_, ?_, ?_, ?_⟩
    · intro hnd hmem
      rw [List.mem_append] at hmem
      cases hmem with
      | inl hmem2 => exact hrec0 hnd hmem2
      | inr hmem2 =>
        simp at hmem2
        rw [hmem2]
    · simp
    · intro habs
      simp at habs
    · intro r2 hr2
      simp only [List.cons.injEq, and_true] at hr2
      subst hr2
      refine ⟨hkey, hcalls1, ?_, ?_, ?_, ?_⟩
      · rw [halive]
        rw [hcount]
        push_cast
        ring
      · simp
      · intro _
        exact ⟨hact, hdc⟩
      · intro habs
        rw [halive] at habs
        cases habs

/-- Disposing any handle preserves the invariant. -/
theorem watchInv_dispose (k : String) (st : WatchState) (h : Nat) (hInv : WatchInv k st) :
    WatchInv k (disposeHandle h st) := by
  obtain ⟨hrec0, hlen, hempty, hone⟩ := hInv
  cases hget : st.handles[h]? with
  | none =>
    have hid : disposeHandle h st = st := by
      unfold disposeHandle
      rw [hget]
    rw [hid]
    exact ⟨hrec0, hlen, hempty, hone⟩
  | some hd =>
    by_cases hdisp : hd.disposed = true
    · have hid : disposeHandle h st = st := by
        unfold disposeHandle
        rw [hget]
        simp [hdisp]
      rw [hid]
      exact ⟨hrec0, hlen, hempty, hone⟩
    · have hdf : hd.disposed = false := by
        simpa using hdisp
      have hmem : hd ∈ st.handles := List.getElem?_mem hget
      have hrid : hd.recId = 0 := hrec0 hd hmem
      have hal : 1 ≤ aliveCount st := by
        have : 0 < st.handles.countP (fun x => !x.disposed) :=
          List.countP_pos_iff.mpr ⟨hd, hmem, by simp [hdf]⟩
        rw [aliveCount]
        omega
      have hne : st.handles ≠ [] := by
        intro habs
        rw [habs] at hmem
        cases hmem
      have hrne : st.recs ≠ [] := fun hnil2 => hne (hempty hnil2).1
      obtain ⟨r, hr⟩ :=
        List.length_eq_one.mp (Nat.le_antisymm hlen (List.length_pos.mpr hrne))
      obtain ⟨hkey, hcalls1, hcount, hhne, hposc, hzeroc⟩ := hone r hr
      obtain ⟨hact, hdc⟩ := hposc hal
      have hentry : st.recs.getD hd.recId default = r := by
        rw [hrid, hr]
        rfl
      have halive2 : (st.handles.set h ⟨hd.recId, true⟩).countP (fun x => !x.disposed) + 1 =
          aliveCount st := countP_set_disposed st.handles h hd hget hdf
      have hsetne : st.handles.set h ⟨hd.recId, true⟩ ≠ [] := by
        intro habs
        apply hne
        have := congrArg List.length habs
        simp only [List.length_set, List.length_nil] at this
        exact List.eq_nil_of_length_eq_zero this
      by_cases hc : (r.count - 1 == 0) = true
      · have hzero : r.count - 1 = 0 := by
          exact beq_iff_eq.mp hc
        have halv1 : aliveCount st = 1 := by
          have : (aliveCount st : Int) = r.count := hcount.symm
          omega
        have halive3 : (st.handles.set h ⟨hd.recId, true⟩).countP (fun x => !x.disposed) = 0 := by
          omega
        have hchar : disposeHandle h st = WatchState.mk
            [⟨r.key, r.count - 1, r.underlyingDisposeCalls + 1⟩]
            (fun k2 => if k2 = r.key then none else st.active k2)
            (st.handles.set h ⟨hd.recId, true⟩) st.watchCalls := by
          unfold disposeHandle
          rw [hget]
          simp [hdf, hentry, hc, hrid, hr]
        rw [hchar]
        refine ⟨?_, ?_, ?_, ?_⟩
        · intro hnd hmem2
          cases List.mem_or_eq_of_mem_set hmem2 with
          | inl hmem3 => exact hrec0 hnd hmem3
          | inr hmem3 =>
            rw [hmem3, hrid]
        · simp
        · intro habs
          simp at habs
        · intro r2 hr2
          simp only [List.cons.injEq, and_true] at hr2
          subst hr2
          refine ⟨hkey, hcalls1, ?_, hsetne, ?_, ?_⟩
          · simp only [aliveCount]
            rw [halive3, hzero]
            rfl
          · intro habs
            simp only [aliveCount] at habs
            rw [halive3] at habs
            cases habs
          · intro _
            constructor
            · rw [hkey]
              simp
            · rw [hdc]
      · have hnzero : r.count - 1 ≠ 0 := by
          intro habs
          rw [← beq_iff_eq (a := r.count - 1) (b := 0)] at habs
          exact hc habs
        have halv2 : 2 ≤ aliveCount st := by
          have : (aliveCount st : Int) = r.count := hcount.symm
          omega
        have hchar : disposeHandle h st = WatchState.mk
            [⟨r.key, r.count - 1, r.underlyingDisposeCalls⟩] st.active
            (st.handles.set h ⟨hd.recId, true⟩) st.watchCalls := by
          unfold disposeHandle
          rw [hget]
          simp [hdf, hentry, hc, hrid, hr]
        rw [hchar]
        refine ⟨?_, ?_, ?_, ?_⟩
        · intro hnd hmem2
          cases List.mem_or_eq_of_mem_set hmem2 with
          | inl hmem3 => exact hrec0 hnd hmem3
          | inr hmem3 =>
            rw [hmem3, hrid]
        · simp
        · intro habs
          simp at habs
        · intro r2 hr2
          simp only [List.cons.injEq, and_true] at hr2
          subst hr2
          refine ⟨hkey, hcalls1, ?_, hsetne, ?_, ?_⟩
          · simp only [aliveCount]
            rw [hcount]
            omega
          · intro _
            exact ⟨hact, hdc⟩
          · intro habs
            simp only [aliveCount] at habs
            omega

/-- No step removes watcher records. -/
theorem recs_length_mono_step (op : WatchOp) (st : WatchState) :
    st.recs.length ≤ (stepWatchOp op st).recs.length := by
  cases op with
  | watch k2 =>
    show st.recs.length ≤ (doWatch k2 st).1.recs.length
    unfold doWatch
    cases hact : st.active k2 with
    | some rid => simp
    | none => simp
  | disposeH h =>
    show st.recs.length ≤ (disposeHandle h st).recs.length
    unfold disposeHandle
    cases hget : st.handles[h]? with
    | none => simp
    | some hd =>
      simp only []
      split
      · simp
      · split <;> simp

/-- No run removes watcher records. -/
theorem recs_length_mono_run (ops : List WatchOp) :
    ∀ st, st.recs.length ≤ (runWatchOps ops st).recs.length := by
  induction ops with
  | nil =>
    intro st
    simp [runWatchOps]
  | cons op rest ih =>
    intro st
    have h1 := recs_length_mono_step op st
    have h2 := ih (stepWatchOp op st)
    have h3 : runWatchOps (op :: rest) st = runWatchOps rest (stepWatchOp op st) := rfl
    rw [h3]
    omega

/-- The invariant holds along every prefix of a run whose watch calls all target the
key and happen only while the table is empty or some handle is alive. -/
theorem watchInv_run (k : String) (ops : List WatchOp)
    (hall : ops.all (isWatchFor k) = true)
    (halive : ∀ i, i < ops.length → 0 < i →
      ops.getD i (.disposeH 0) = .watch k →
      1 ≤ aliveCount (runWatchOps (ops.take i) initWatchState)) :
    ∀ i, i ≤ ops.length → WatchInv k (runWatchOps (ops.take i) initWatchState) := by
  intro i
  induction i with
  | zero =>
    intro _
    simpa [runWatchOps] using watchInv_init k
  | succ j ihj =>
    intro hle
    have hjlt : j < ops.length := by omega
    have hInv := ihj (by omega)
    cases hoj : ops[j]? with
    | none =>
      rw [List.getElem?_eq_none_iff] at hoj
      omega
    | some op =>
      have htake : ops.take (j + 1) = ops.take j ++ [op] := by
        rw [List.take_succ, hoj]
        rfl
      have hrun : runWatchOps (ops.take (j + 1)) initWatchState =
          stepWatchOp op (runWatchOps (ops.take j) initWatchState) := by
        rw [htake]
        unfold runWatchOps
        rw [List.foldl_append]
        rfl
      rw [hrun]
      cases op with
      | disposeH h2 => exact watchInv_dispose k _ h2 hInv
      | watch k2 =>
        have hk2 : k2 = k := by
          have hmem : WatchOp.watch k2 ∈ ops := List.getElem?_mem hoj
          have := (List.all_eq_true.mp hall) _ hmem
          simpa [isWatchFor] using this
        rw [hk2]
        apply watchInv_watch k _ hInv
        by_cases hj0 : j = 0
        · left
          subst hj0
          rfl
        · right
          apply halive j hjlt (by omega)
          rw [List.getD_eq_getElem?_getD, hoj, hk2]
          rfl

/-- C6: for every run of N watch calls composing the same watch key (all watches while
the table is empty or some handle is alive) in which every handle ends up disposed:
the underlying `provider.watch` was invoked exactly once, the entry was removed from
the table, the single shared record has its underlying disposable disposed exactly
once and refcount zero, and along every prefix of the run the shared record's
refcount equals the number of undisposed handles. -/
theorem claim6_watcher_refcount (k : String) (ops rest : List WatchOp)
    (hshape : ops = .watch k :: rest)
    (hall : ops.all (isWatchFor k) = true)
    (halive : ∀ i, i < ops.length → 0 < i →
      ops.getD i (.disposeH 0) = .watch k →
      1 ≤ aliveCount (runWatchOps (ops.take i) initWatchState))
    (hdone : aliveCount (runWatchOps ops initWatchState) = 0) :
    ((runWatchOps ops initWatchState).watchCalls k = 1) ∧
    ((runWatchOps ops initWatchState).active k = none) ∧
    (∃ r, (runWatchOps ops initWatchState).recs = [r] ∧
      r.underlyingDisposeCalls = 1 ∧ r.count = 0) ∧
    (∀ i, i ≤ ops.length → ∀ r,
      (runWatchOps (ops.take i) initWatchState).recs = [r] →
      r.count = (aliveCount (runWatchOps (ops.take i) initWatchState) : Int)) := by
  have hfin : WatchInv k (runWatchOps ops initWatchState) := by
    have := watchInv_run k ops hall halive ops.length (by omega)
    rwa [List.take_length] at this
  obtain ⟨hrec0, hlen, hempty, hone⟩ := hfin
  have hlen1 : (runWatchOps ops initWatchState).recs.length = 1 := by
    have hmono := recs_length_mono_run rest (stepWatchOp (.watch k) initWatchState)
    have hstep1 : (stepWatchOp (.watch k) initWatchState).recs.length = 1 := rfl
    have hrw : runWatchOps ops initWatchState =
        runWatchOps rest (stepWatchOp (.watch k) initWatchState) := by
      rw [hshape]
      rfl
    rw [hrw]
    rw [hrw] at hlen
    omega
  obtain ⟨r, hr⟩ := List.length_eq_one.mp hlen1
  obtain ⟨hkey, hcalls1, hcount, hhne, hposc, hzeroc⟩ := hone r hr
  obtain ⟨hact, hdcalls⟩ := hzeroc hdone
  refine ⟨hcalls1, hact, ⟨r, hr, hdcalls, ?_⟩, ?_⟩
  · rw [hcount, hdone]
    rfl
  · intro i hile r2 hr2
    have hInvi := watchInv_run k ops hall halive i hile
    exact ((hInvi.2.2.2) r2 hr2).2.2.1

/-- C6, witness: two watch calls for key `k` followed by disposal of both handles —
one provider watch invocation, the entry removed, the underlying disposable disposed
once, and refcounts matching live handles along the way. -/
theorem claim6_watcher_refcount_witness :
    ([WatchOp.watch "k", .watch "k", .disposeH 0, .disposeH 1] =
      WatchOp.watch "k" :: [.watch "k", .disposeH 0, .disposeH 1]) ∧
    (([WatchOp.watch "k", .watch "k", .disposeH 0, .disposeH 1].all (isWatchFor "k")) = true) ∧
    ((runWatchOps [WatchOp.watch "k", .watch "k", .disposeH 0, .disposeH 1]
        initWatchState).watchCalls "k" = 1) ∧
    ((runWatchOps [WatchOp.watch "k", .watch "k", .disposeH 0, .disposeH 1]
        initWatchState).active "k" = none) ∧
    (∃ r, (runWatchOps [WatchOp.watch "k", .watch "k", .disposeH 0, .disposeH 1]
        initWatchState).recs = [r] ∧
      r.underlyingDisposeCalls = 1 ∧ r.count = 0) ∧
    (∀ i, i ≤ [WatchOp.watch "k", .watch "k", .disposeH 0, .disposeH 1].length → ∀ r,
      (runWatchOps ([WatchOp.watch "k", .watch "k", .disposeH 0, .disposeH 1].take i)
        initWatchState).recs = [r] →
      r.count = (aliveCount (runWatchOps
        ([WatchOp.watch "k", .watch "k", .disposeH 0, .disposeH 1].take i)
        initWatchState) : Int)) := by
  refine ⟨rfl, by decide, ?_⟩
  have h := claim6_watcher_refcount "k"
    [WatchOp.watch "k", .watch "k", .disposeH 0, .disposeH 1]
    [WatchOp.watch "k", .disposeH 0, .disposeH 1] rfl (by decide)
    (by decide) (by decide)
  exact ⟨h.1, h.2.1, h.2.2.1, h.2.2.2⟩

/-- C7: disposing a handle returned by watch decrements the refcount of the watcher
record it captured exactly once: a second disposal of the same handle is a no-op
(the whole state is unchanged), and this holds for every state — in particular also
when the underlying subscription has already been torn down (record disposed,
entry deleted). -/
theorem claim7_handle_decrements_once (st : WatchState) (h : Nat) (hd : WatchHandle)
    (hget : st.handles[h]? = some hd) (hrec : hd.recId < st.recs.length) :
    (disposeHandle h (disposeHandle h st) = disposeHandle h st) ∧
    (hd.disposed = false →
      ((disposeHandle h st).recs.getD hd.recId default).count =
        (st.recs.getD hd.recId default).count - 1) := by
  obtain ⟨rid, d⟩ := hd
  simp only at hget hrec ⊢
  have hlt : h < st.handles.length := by
    rw [List.getElem?_eq_some] at hget
    exact hget.1
  cases d with
  | true =>
    have hstable : disposeHandle h st = st := by
      unfold disposeHandle
      rw [hget]
      simp
    refine ⟨by rw [hstable]; exact hstable, fun hfalse => by cases hfalse⟩
  | false =>
    by_cases hc : ((st.recs.getD rid default).count - 1 == 0) = true
    · have hst1 : disposeHandle h st =
          { recs := st.recs.set rid
              ⟨(st.recs.getD rid default).key, (st.recs.getD rid default).count - 1,
                (st.recs.getD rid default).underlyingDisposeCalls + 1⟩,
            active := fun k => if k = (st.recs.getD rid default).key then none
              else st.active k,
            handles := st.handles.set h ⟨rid, true⟩,
            watchCalls := st.watchCalls } := by
        unfold disposeHandle
        rw [hget]
        simp only [Bool.false_eq_true, if_false, hc, if_true]
      constructor
      · rw [hst1]
        unfold disposeHandle
        rw [show (st.handles.set h ⟨rid, true⟩)[h]? = some ⟨rid, true⟩ from
          List.getElem?_set_self (by simpa using hlt)]
        simp
      · intro _
        rw [hst1]
        simp only [List.getD_eq_getElem?_getD,
          List.getElem?_set_self (by simpa using hrec : rid < (st.recs).length)]
        rfl
    · have hst1 : disposeHandle h st =
          { recs := st.recs.set rid
              ⟨(st.recs.getD rid default).key, (st.recs.getD rid default).count - 1,
                (st.recs.getD rid default).underlyingDisposeCalls⟩,
            active := st.active,
            handles := st.handles.set h ⟨rid, true⟩,
            watchCalls := st.watchCalls } := by
        unfold disposeHandle
        rw [hget]
        simp only [Bool.false_eq_true, if_false, hc]
      constructor
      · rw [hst1]
        unfold disposeHandle
        rw [show (st.handles.set h ⟨rid, true⟩)[h]? = some ⟨rid, true⟩ from
          List.getElem?_set_self (by simpa using hlt)]
        simp
      · intro _
        rw [hst1]
        simp only [List.getD_eq_getElem?_getD,
          List.getElem?_set_self (by simpa using hrec : rid < (st.recs).length)]
        rfl

/-- C7, witness: after a single watch call, disposing its handle twice equals
disposing it once, and the first disposal decrements the refcount by one. -/
theorem claim7_handle_decrements_once_witness :
    ((doWatch "k" initWatchState).1.handles[0]? = some ⟨0, false⟩) ∧
    ((0 : Nat) < (doWatch "k" initWatchState).1.recs.length) ∧
    (disposeHandle 0 (disposeHandle 0 (doWatch "k" initWatchState).1) =
      disposeHandle 0 (doWatch "k" initWatchState).1) ∧
    ((WatchHandle.mk 0 false).disposed = false →
      ((disposeHandle 0 (doWatch "k" initWatchState).1).recs.getD 0 default).count =
        ((doWatch "k" initWatchState).1.recs.getD 0 default).count - 1) := by
  refine ⟨by decide, by decide, ?_⟩
  exact claim7_handle_decrements_once (doWatch "k" initWatchState).1 0 ⟨0, false⟩
    (by decide) (by decide)

/-- C9: when the capability pair of (source provider, target provider) matches none of
the four byte-pipe variants — all four dispatch conditions fail — the per-file copy
step returns with an empty trace: no bytes are transferred and no error is raised. -/
theorem claim9_no_pipe_variant (sp tp : Provider) (source target : Uri)
    (h1 : ¬(hasOpenReadWriteCloseCapability sp = true ∧
      hasOpenReadWriteCloseCapability tp = true))
    (h2 : ¬(hasOpenReadWriteCloseCapability sp = true ∧ hasReadWriteCapability tp = true))
    (h3 : ¬(hasReadWriteCapability sp = true ∧ hasOpenReadWriteCloseCapability tp = true))
    (h4 : ¬(hasReadWriteCapability sp = true ∧ hasReadWriteCapability tp = true)) :
    doCopyFile sp source tp target = [] := by
  unfold doCopyFile
  cases hso : hasOpenReadWriteCloseCapability sp <;>
    cases hsr : hasReadWriteCapability sp <;>
    cases hto : hasOpenReadWriteCloseCapability tp <;>
    cases htr : hasReadWriteCapability tp <;>
    simp_all

/-- C9, witness: a source provider with only FileReadStream (capability bitset 16)
and an unbuffered target provider match no pipe variant; the per-file copy step is an
error-free no-op. -/
theorem claim9_no_pipe_variant_witness :
    (¬(hasOpenReadWriteCloseCapability ⟨0, 16⟩ = true ∧
      hasOpenReadWriteCloseCapability ⟨1, 2⟩ = true)) ∧
    (¬(hasOpenReadWriteCloseCapability ⟨0, 16⟩ = true ∧
      hasReadWriteCapability ⟨1, 2⟩ = true)) ∧
    (¬(hasReadWriteCapability ⟨0, 16⟩ = true ∧
      hasOpenReadWriteCloseCapability ⟨1, 2⟩ = true)) ∧
    (¬(hasReadWriteCapability ⟨0, 16⟩ = true ∧ hasReadWriteCapability ⟨1, 2⟩ = true)) ∧
    doCopyFile ⟨0, 16⟩ (Uri.mk "mem" true ["a"]) ⟨1, 2⟩ (Uri.mk "disk" true ["b"]) = [] := by
  refine ⟨by decide, by decide, by decide, by decide, ?_⟩
  exact claim9_no_pipe_variant ⟨0, 16⟩ ⟨1, 2⟩ (Uri.mk "mem" true ["a"])
    (Uri.mk "disk" true ["b"]) (by decide) (by decide) (by decide) (by decide)

/-- The trie test used by the resolve callback hits exactly when some seeded key lies
at or beneath the probed URI string. -/
theorem trie_hit_iff (keys : List String) (k : String) :
    (trieFindSuperstr keys k || trieGet keys k) = true ↔
      ∃ u ∈ keys, u = k ∨ isStrictPathAncestor k u = true := by
  simp only [Bool.or_eq_true, trieFindSuperstr, List.any_eq_true, trieGet,
    List.elem_iff]
  constructor
  · rintro (⟨u, hu, hs⟩ | hk)
    · exact ⟨u, hu, Or.inr hs⟩
    · exact ⟨k, hk, Or.inl rfl⟩
  · rintro ⟨u, hu, rfl | hs⟩
    · exact Or.inr hu
    · exact Or.inl ⟨u, hu, hs⟩

/-- C4: during `resolve`, a node's children are listed and recursed into iff the node is
a directory and either (a) the trie seeded with the resolved resource and all
`resolveTo` URIs holds an entry at or beneath the node's URI string, or (b)
`resolveSingleChildDescendants` is set and the parent's listing contained exactly one
entry (the sibling count the traversal passes down).  Quantifying over the node's URI,
filesystem subtree and sibling count covers every directory encountered, since
`toFileStat` recurses with exactly these parameters. -/
theorem claim4_resolve_expansion (root : Uri) (resolveTo : List Uri) (scd : Bool)
    (node : Uri) (entry : FsEntry) (siblings : Option Nat)
    (hwf : dirBitConsistent entry) :
    ((toFileStat (resolveRecurseCallback root resolveTo scd) node entry siblings).children.isSome
        = true) ↔
      ((entry.statOf.type &&& FileType.Directory ≠ 0) ∧
        ((∃ u ∈ root.toString :: resolveTo.map Uri.toString,
            u = node.toString ∨ isStrictPathAncestor node.toString u = true) ∨
          (scd = true ∧ siblings = some 1))) := by
  cases entry with
  | file s =>
    simp only [dirBitConsistent] at hwf
    simp [toFileStat, FsEntry.statOf, hwf]
  | dir s children =>
    simp only [dirBitConsistent] at hwf
    have hbit : ((s.type &&& FileType.Directory) != 0) = true := by
      simpa [bne_iff_ne] using hwf
    by_cases hsup : (trieFindSuperstr (root.toString :: resolveTo.map Uri.toString) node.toString
        || trieGet (root.toString :: resolveTo.map Uri.toString) node.toString) = true
    · have hrhs := (trie_hit_iff (root.toString :: resolveTo.map Uri.toString) node.toString).mp hsup
      simp [toFileStat, FsEntry.statOf, resolveRecurseCallback, hbit, hsup, hwf]
      exact Or.inl (by simpa using hrhs)
    · have hrhs : ¬ ∃ u ∈ root.toString :: resolveTo.map Uri.toString,
          u = node.toString ∨ isStrictPathAncestor node.toString u = true := fun h =>
        hsup ((trie_hit_iff (root.toString :: resolveTo.map Uri.toString) node.toString).mpr h)
      rw [Bool.or_eq_true, not_or, Bool.not_eq_true, Bool.not_eq_true] at hsup
      cases scd with
      | false =>
        simp [toFileStat, FsEntry.statOf, resolveRecurseCallback, hbit, hsup.1, hsup.2, hwf]
        simpa using hrhs
      | true =>
        by_cases hsib : siblings = some 1
        · simp [toFileStat, FsEntry.statOf, resolveRecurseCallback, hbit, hsup.1, hsup.2, hwf, hsib]
        · simp [toFileStat, FsEntry.statOf, resolveRecurseCallback, hbit, hsup.1, hsup.2, hwf, hsib]
          simpa using hrhs

/-- A URI equals its own dirname exactly at the root (empty segment list). -/
theorem uri_eq_dirname_iff (u : Uri) : u = Uri.dirname u ↔ u.segs = [] := by
  cases u with
  | mk scheme absolute segs =>
    simp only [Uri.dirname, Uri.mk.injEq, true_and]
    constructor
    · intro h
      by_contra hne
      have hlen := List.length_dropLast segs
      have hpos : 0 < segs.length := List.length_pos.mpr hne
      rw [← h] at hlen
      omega
    · rintro rfl
      rfl

/-- Fuel exceeding the path depth suffices for the upward walk of mkdirp: the walk
never runs out of fuel, and it collects at most one basename per path segment. -/
theorem mkdirpUp_fuel_sufficient (stat : Uri → Except FsError IStat) :
    ∀ fuel directory acc, directory.segs.length < fuel →
      (mkdirpUp stat fuel directory acc ≠ .error .outOfFuel ∧
        ∀ base acc2, mkdirpUp stat fuel directory acc = .ok (base, acc2) →
          acc2.length ≤ acc.length + directory.segs.length) := by
  intro fuel
  induction fuel with
  | zero =>
    intro d acc h
    omega
  | succ f ih =>
    intro d acc h
    simp only [mkdirpUp]
    by_cases hroot : d == Uri.dirname d
    · simp only [hroot, if_true]
      refine ⟨by simp, fun base acc2 hk => ?_⟩
      simp only [Except.ok.injEq, Prod.mk.injEq] at hk
      obtain ⟨h1', h2'⟩ := hk
      subst h2'
      omega
    · have hne : d.segs ≠ [] := by
        intro hnil
        exact hroot (by simp [beq_iff_eq, uri_eq_dirname_iff, hnil])
      have hlen : (Uri.dirname d).segs.length = d.segs.length - 1 := by
        simp [Uri.dirname, List.length_dropLast]
      have hpos : 0 < d.segs.length := List.length_pos.mpr hne
      simp only [Bool.not_eq_true] at hroot
      simp only [hroot, Bool.false_eq_true, if_false]
      cases hstat : stat d with
      | ok st =>
        by_cases htype : (st.type &&& FileType.Directory) == 0
        · simp only [htype, if_true]
          exact ⟨by simp, fun base acc2 hk => by simp at hk⟩
        · simp only [Bool.not_eq_true] at htype
          simp only [htype, Bool.false_eq_true, if_false]
          refine ⟨by simp, fun base acc2 hk => ?_⟩
          simp only [Except.ok.injEq, Prod.mk.injEq] at hk
          obtain ⟨h1', h2'⟩ := hk
          subst h2'
          omega
      | error e =>
        by_cases herr : e != FsError.notFound
        · simp only [herr, if_true]
          exact ⟨by simp, fun base acc2 hk => by simp at hk⟩
        · simp only [Bool.not_eq_true] at herr
          simp only [herr, Bool.false_eq_true, if_false]
          have hrec := ih (Uri.dirname d) (acc ++ [Uri.basename d]) (by omega)
          refine ⟨hrec.1, fun base acc2 hk => ?_⟩
          have := hrec.2 base acc2 hk
          simp only [List.length_append, List.length_singleton] at this
          omega

/-- C10: mkdirp terminates.  The upward walk applies dirname repeatedly; dirname
strictly shortens the path until the fixpoint where the directory equals its own
dirname, so any fuel exceeding the path depth is never exhausted (each provider stat
call is a single lookup in this model), and the downward creation loop is bounded by
the collected basenames, of which there is at most one per path segment. -/
theorem claim10_mkdirp_terminates (stat : Uri → Except FsError IStat) (directory : Uri)
    (fuel : Nat) (hfuel : directory.segs.length < fuel) :
    (mkdirp stat fuel directory ≠ .error .outOfFuel) ∧
    (∀ base acc, mkdirpUp stat fuel directory [] = .ok (base, acc) →
      acc.length ≤ directory.segs.length) := by
  obtain ⟨h1, h2⟩ := mkdirpUp_fuel_sufficient stat fuel directory [] hfuel
  refine ⟨?_, fun base acc hk => by simpa using h2 base acc hk⟩
  unfold mkdirp
  cases hm : mkdirpUp stat fuel directory [] with
  | error e =>
    have he : e ≠ .outOfFuel := fun hcontra => h1 (by rw [hm, hcontra])
    simp [he]
  | ok v =>
    obtain ⟨b, a⟩ := v
    simp

/-- C10, witness: the theorem applied to a two-segment directory with fuel 3 over a
provider whose stat always reports FileNotFound. -/
theorem claim10_mkdirp_terminates_witness :
    ((⟨"mem", true, ["a", "b"]⟩ : Uri).segs.length < 3) ∧
    (mkdirp (fun _ => .error .notFound) 3 ⟨"mem", true, ["a", "b"]⟩ ≠ .error .outOfFuel) ∧
    (∀ base acc,
      mkdirpUp (fun _ => .error .notFound) 3 ⟨"mem", true, ["a", "b"]⟩ [] = .ok (base, acc) →
      acc.length ≤ (⟨"mem", true, ["a", "b"]⟩ : Uri).segs.length) := by
  refine ⟨by decide, ?_⟩
  exact claim10_mkdirp_terminates (fun _ => .error .notFound) ⟨"mem", true, ["a", "b"]⟩ 3
    (by decide)

/-- Enqueueing tasks that all share one canonical key appends them, in submission
order, to the single queue stored at that key. -/
theorem enqueueAll_same_key (provider : Provider) (key : String) :
    ∀ (reqs : List WriteReq) (queues : String → List WriteReq),
      (∀ r ∈ reqs, toMapKey provider r.resource = key) →
      enqueueAll provider queues reqs key = queues key ++ reqs := by
  intro reqs
  induction reqs with
  | nil =>
    intro queues _
    simp [enqueueAll]
  | cons r rest ih =>
    intro queues hkey
    have hr : toMapKey provider r.resource = key := hkey r (by simp)
    have hrest : ∀ x ∈ rest, toMapKey provider x.resource = key := fun x hx =>
      hkey x (by simp [hx])
    simp only [enqueueAll, List.foldl_cons]
    rw [show rest.foldl (enqueueWrite provider) (enqueueWrite provider queues r) =
        enqueueAll provider (enqueueWrite provider queues r) rest from rfl]
    rw [ih (enqueueWrite provider queues r) hrest]
    simp [enqueueWrite, hr]

/-- After a FIFO queue run, the content at the key is the payload of the last task. -/
theorem runWriteQueue_last (key : String) :
    ∀ (tasks : List WriteReq) (st0 : (String → Option (List Nat)) × List WriteEvent)
      (hne : tasks ≠ []),
      (tasks.foldl (fun (st : (String → Option (List Nat)) × List WriteEvent) req =>
          ((fun k => if k = key then some req.payload else st.1 k),
            st.2 ++ writeTaskTrace key req)) st0).1 key =
        some ((tasks.getLast hne).payload) := by
  intro tasks
  induction tasks with
  | nil =>
    intro st0 hne
    exact absurd rfl hne
  | cons t ts ih =>
    intro st0 hne
    cases ts with
    | nil => simp
    | cons t2 ts2 =>
      rw [List.foldl_cons, ih _ (List.cons_ne_nil t2 ts2)]
      rw [List.getLast_cons (List.cons_ne_nil t2 ts2)]

/-- A FIFO queue run emits each task's trace as one contiguous block, in submission
order. -/
theorem runWriteQueue_trace (key : String) :
    ∀ (tasks : List WriteReq) (st0 : (String → Option (List Nat)) × List WriteEvent),
      (tasks.foldl (fun (st : (String → Option (List Nat)) × List WriteEvent) req =>
          ((fun k => if k = key then some req.payload else st.1 k),
            st.2 ++ writeTaskTrace key req)) st0).2 =
        st0.2 ++ (tasks.map (writeTaskTrace key)).flatten := by
  intro tasks
  induction tasks with
  | nil =>
    intro st0
    simp
  | cons t ts ih =>
    intro st0
    rw [List.foldl_cons, ih]
    simp [List.append_assoc]

/-- C3: buffered writes and cross-provider pipes submitted for one canonical resource
key land on the single queue stored at that key in FIFO submission order; executing
that queue runs the tasks one after another, so their provider-level traces form
disjoint consecutive blocks (no two overlap), and after all settle the content at the
key equals the payload of the last-enqueued write. -/
theorem claim3_fifo_write_queue (provider : Provider) (reqs : List WriteReq) (key : String)
    (content0 : String → Option (List Nat))
    (hkey : ∀ r ∈ reqs, toMapKey provider r.resource = key) (hne : reqs ≠ []) :
    ((enqueueAll provider (fun _ => []) reqs) key = reqs) ∧
    ((runWriteQueue key reqs content0).1 key = some ((reqs.getLast hne).payload)) ∧
    ((runWriteQueue key reqs content0).2 = (reqs.map (writeTaskTrace key)).flatten) := by
  refine ⟨?_, ?_, ?_⟩
  · rw [enqueueAll_same_key provider key reqs (fun _ => []) hkey]
    simp
  · exact runWriteQueue_last key reqs (content0, []) hne
  · have := runWriteQueue_trace key reqs (content0, [])
    simpa [runWriteQueue] using this

/-- C3, witness: two writes to the same resource (case-sensitive provider, so the
canonical key is the URI string itself) serialize FIFO and the final content is the second
payload. -/
theorem claim3_fifo_write_queue_witness :
    (∀ r ∈ [(⟨⟨"mem", true, ["a"]⟩, [1]⟩ : WriteReq), ⟨⟨"mem", true, ["a"]⟩, [2]⟩],
        toMapKey ⟨0, 1026⟩ r.resource = "mem://a") ∧
    (([(⟨⟨"mem", true, ["a"]⟩, [1]⟩ : WriteReq), ⟨⟨"mem", true, ["a"]⟩, [2]⟩] ≠ []) ∧
      ((enqueueAll ⟨0, 1026⟩ (fun _ => [])
          [(⟨⟨"mem", true, ["a"]⟩, [1]⟩ : WriteReq), ⟨⟨"mem", true, ["a"]⟩, [2]⟩]) "mem://a" =
        [(⟨⟨"mem", true, ["a"]⟩, [1]⟩ : WriteReq), ⟨⟨"mem", true, ["a"]⟩, [2]⟩]) ∧
      ((runWriteQueue "mem://a"
          [(⟨⟨"mem", true, ["a"]⟩, [1]⟩ : WriteReq), ⟨⟨"mem", true, ["a"]⟩, [2]⟩]
          (fun _ => none)).1 "mem://a" =
        some (([(⟨⟨"mem", true, ["a"]⟩, [1]⟩ : WriteReq),
            ⟨⟨"mem", true, ["a"]⟩, [2]⟩].getLast (List.cons_ne_nil _ _)).payload)) ∧
      ((runWriteQueue "mem://a"
          [(⟨⟨"mem", true, ["a"]⟩, [1]⟩ : WriteReq), ⟨⟨"mem", true, ["a"]⟩, [2]⟩]
          (fun _ => none)).2 =
        ([(⟨⟨"mem", true, ["a"]⟩, [1]⟩ : WriteReq), ⟨⟨"mem", true, ["a"]⟩, [2]⟩].map
          (writeTaskTrace "mem://a")).flatten)) := by
  refine ⟨by decide, by decide, ?_, ?_, ?_⟩
  · exact (claim3_fifo_write_queue ⟨0, 1026⟩
      [(⟨⟨"mem", true, ["a"]⟩, [1]⟩ : WriteReq), ⟨⟨"mem", true, ["a"]⟩, [2]⟩] "mem://a"
      (fun _ => none) (by decide) (by decide)).1
  · exact (claim3_fifo_write_queue ⟨0, 1026⟩
      [(⟨⟨"mem", true, ["a"]⟩, [1]⟩ : WriteReq), ⟨⟨"mem", true, ["a"]⟩, [2]⟩] "mem://a"
      (fun _ => none) (by decide) (by decide)).2.1
  · exact (claim3_fifo_write_queue ⟨0, 1026⟩
      [(⟨⟨"mem", true, ["a"]⟩, [1]⟩ : WriteReq), ⟨⟨"mem", true, ["a"]⟩, [2]⟩] "mem://a"
      (fun _ => none) (by decide) (by decide)).2.2

/-- C4, witness: a lone directory at the resolved root itself is expanded (the trie is
seeded with the root, an entry at the node). -/
theorem claim4_resolve_expansion_witness :
    dirBitConsistent (.dir ⟨2, 0, 0, 0⟩ []) ∧
    (((toFileStat (resolveRecurseCallback ⟨"mem", true, ["a"]⟩ [] false)
          ⟨"mem", true, ["a"]⟩ (.dir ⟨2, 0, 0, 0⟩ []) none).children.isSome = true) ↔
      (((FsEntry.dir ⟨2, 0, 0, 0⟩ []).statOf.type &&& FileType.Directory ≠ 0) ∧
        ((∃ u ∈ (⟨"mem", true, ["a"]⟩ : Uri).toString :: ([] : List Uri).map Uri.toString,
            u = (⟨"mem", true, ["a"]⟩ : Uri).toString ∨
              isStrictPathAncestor (⟨"mem", true, ["a"]⟩ : Uri).toString u = true) ∨
          (false = true ∧ (none : Option Nat) = some 1)))) :=
  ⟨by simp only [dirBitConsistent]; decide,
    claim4_resolve_expansion ⟨"mem", true, ["a"]⟩ [] false ⟨"mem", true, ["a"]⟩
      (.dir ⟨2, 0, 0, 0⟩ []) none (by simp only [dirBitConsistent]; decide)⟩

/-- C1, counterexample: the claim quantifies over every resource whose current stat has
numeric mtime and size.  For a directory stat with `mtime = 2000, size = 5` and options
`mtime = 1000, etag = "x"` the dirty-write condition of the claim holds, yet the call
fails with FILE_IS_DIRECTORY — not FILE_MODIFIED_SINCE — and the write does not
proceed, refuting the stated "if and only if". -/
theorem claim1_counterexample :
    ((1000 : Nat) < 2000 ∧ ("x" : String) ≠ ETAG_DISABLED ∧ ("x" : String) ≠ etag 1000 5) ∧
    validateWriteFile (some ⟨FileType.Directory, 2000, 0, 5⟩) (some ⟨some 1000, some "x"⟩) =
      .error .FILE_IS_DIRECTORY ∧
    validateWriteFile (some ⟨FileType.Directory, 2000, 0, 5⟩) (some ⟨some 1000, some "x"⟩) ≠
      .error .FILE_MODIFIED_SINCE := by
  decide

/-- C1 (amended): for every write whose options carry a numeric mtime and a string etag
different from ETAG_DISABLED, against a resource whose current stat has numeric mtime
and size and is not a directory, validation fails with FILE_MODIFIED_SINCE iff
`options.mtime < stat.mtime` and `options.etag` differs from `etag(options.mtime,
stat.size)`; in every other case the dirty-write guard passes and validation returns
the stat so the write proceeds. -/
theorem claim1_dirty_write_guard (stat : IStat) (m : Nat) (e : String)
    (hdir : stat.type &&& FileType.Directory = 0) (hetag : e ≠ ETAG_DISABLED) :
    (validateWriteFile (some stat) (some ⟨some m, some e⟩) = .error .FILE_MODIFIED_SINCE ↔
      (m < stat.mtime ∧ e ≠ etag m stat.size)) ∧
    (¬(m < stat.mtime ∧ e ≠ etag m stat.size) →
      validateWriteFile (some stat) (some ⟨some m, some e⟩) = .ok (some stat)) := by
  have h1 : (e != ETAG_DISABLED) = true := by
    simpa [bne_iff_ne] using hetag
  by_cases hm : m < stat.mtime <;> by_cases he : e = etag m stat.size <;>
    simp [validateWriteFile, hdir, h1, hm, he]

/-- C1, witness: the amended theorem applied at a plain-file stat with
`mtime = 2000, size = 5` and options `mtime = 1000, etag = "x"`. -/
theorem claim1_dirty_write_guard_witness :
    ((⟨FileType.File, 2000, 0, 5⟩ : IStat).type &&& FileType.Directory = 0) ∧
    (("x" : String) ≠ ETAG_DISABLED) ∧
    (validateWriteFile (some ⟨FileType.File, 2000, 0, 5⟩) (some ⟨some 1000, some "x"⟩) =
        .error .FILE_MODIFIED_SINCE ↔
      (1000 < (⟨FileType.File, 2000, 0, 5⟩ : IStat).mtime ∧
        ("x" : String) ≠ etag 1000 (⟨FileType.File, 2000, 0, 5⟩ : IStat).size)) := by
  refine ⟨by decide, by decide, ?_⟩
  exact (claim1_dirty_write_guard ⟨FileType.File, 2000, 0, 5⟩ 1000 "x" (by decide) (by decide)).1

/-- C5, counterexample: `exists` resolves the provider outside its try/catch, so with no
provider registered for the scheme the ENOPRO error propagates to the caller instead
of yielding `false`, refuting "any error → false; never propagates". -/
theorem claim5_counterexample :
    existsFile (fun _ => none) (fun _ _ => .error (.providerError "eio")) ⟨"mem", true, ["a"]⟩ =
      .error .noProvider ∧
    existsFile (fun _ => none) (fun _ _ => .error (.providerError "eio")) ⟨"mem", true, ["a"]⟩ ≠
      .ok false := by
  decide

/-- C5 (amended): once the provider resolves, `exists` never propagates an error — it
returns a boolean, and returns `false` whenever the provider `stat` call errors; but
failures of provider resolution itself (relative path, unknown scheme) do propagate. -/
theorem claim5_exists_swallows_stat_errors (reg : String → Option Provider)
    (stat : Provider → Uri → Except FsError IStat) (resource : Uri) (p : Provider)
    (hp : withProvider reg resource = .ok p) :
    (∃ b, existsFile reg stat resource = .ok b) ∧
    (∀ e, stat p resource = .error e → existsFile reg stat resource = .ok false) := by
  have key : existsFile reg stat resource =
      (match stat p resource with
       | .ok _ => (.ok true : Except FsError Bool)
       | .error _ => .ok false) := by
    unfold existsFile
    rw [hp]
  constructor
  · cases h : stat p resource with
    | ok s => exact ⟨true, by rw [key, h]⟩
    | error e => exact ⟨false, by rw [key, h]⟩
  · intro e he
    rw [key, he]

/-- C5, witness: the amended theorem applied to a registry holding a provider for
scheme `mem` and a stat that always errors. -/
theorem claim5_exists_swallows_stat_errors_witness :
    (∃ b, existsFile (fun s => if s = "mem" then some ⟨0, 2⟩ else none)
        (fun _ _ => .error (.providerError "eio")) ⟨"mem", true, ["a"]⟩ = .ok b) ∧
    (∀ e, (fun (_ : Provider) (_ : Uri) =>
          (.error (.providerError "eio") : Except FsError IStat)) ⟨0, 2⟩ ⟨"mem", true, ["a"]⟩ =
        .error e →
      existsFile (fun s => if s = "mem" then some ⟨0, 2⟩ else none)
        (fun _ _ => .error (.providerError "eio")) ⟨"mem", true, ["a"]⟩ = .ok false) :=
  claim5_exists_swallows_stat_errors (fun s => if s = "mem" then some ⟨0, 2⟩ else none)
    (fun _ _ => .error (.providerError "eio")) ⟨"mem", true, ["a"]⟩ ⟨0, 2⟩ (by decide)

/-- C8: an unbuffered read returns the provider buffer sliced from `options.position`
when that is a number, additionally truncated to `options.length` when that is a
number, and a length of 0 yields empty bytes regardless of position (stated here for
options without read limits; the limits check runs on the already-sliced length). -/
theorem claim8_unbuffered_read_slicing (content : List Nat) (o : IReadFileOptions)
    (hlim : o.limits = none) :
    (readFileUnbuffered content (some o) =
      .ok (let b := match o.position with
                    | some p => content.drop p
                    | none => content
           match o.length with
           | some l => b.take l
           | none => b)) ∧
    (o.length = some 0 → readFileUnbuffered content (some o) = .ok []) := by
  have hval : ∀ n, validateReadFileLimits n (some o) = .ok () := by
    intro n
    simp [validateReadFileLimits, hlim]
  constructor
  · simp [readFileUnbuffered, hval]
  · intro hlen
    simp [readFileUnbuffered, hval, hlen]

/-- C8, witness: reading `[10, 20, 30, 40]` with `position = 1, length = 2` yields
`[20, 30]`, and `length = 0` yields empty bytes. -/
theorem claim8_unbuffered_read_slicing_witness :
    ((⟨some 1, some 2, none, none⟩ : IReadFileOptions).limits = none) ∧
    readFileUnbuffered [10, 20, 30, 40] (some ⟨some 1, some 2, none, none⟩) = .ok [20, 30] ∧
    readFileUnbuffered [10, 20, 30, 40] (some ⟨some 1, some 0, none, none⟩) = .ok [] := by
  refine ⟨rfl, ?_, ?_⟩
  · have h := (claim8_unbuffered_read_slicing [10, 20, 30, 40] ⟨some 1, some 2, none, none⟩ rfl).1
    simpa using h
  · exact (claim8_unbuffered_read_slicing [10, 20, 30, 40] ⟨some 1, some 0, none, none⟩ rfl).2 rfl

end VFS
